import Mathlib

/-!
Verification development for the Droidpartment project indexing and
pattern-recognition subsystem (`templates/memory/context_index.py`).

The Python module is shallowly embedded: pure helpers become Lean functions,
the on-disk documents of one project become an explicit `Store` record that
the operations transform, Python `float` arithmetic is modelled with `ℚ`
(every quantity involved is a small dyadic/decimal value), and a raised
Python exception is modelled by returning the error alongside the state at
the moment of the raise.  Wall-clock timestamps that are only stored for
display (`indexed_at` strings, `last_updated`, `updated_at`) are not
modelled; the staleness marker used by control flow is kept as a `Nat` day
counter.
-/

namespace Droidpartment

/-! ## Python string primitives used by the module -/

/-- `charsStartWith pat s` is true when `pat` is an initial segment of `s`. -/
def charsStartWith : List Char → List Char → Bool
  | [], _ => true
  | _ :: _, [] => false
  | p :: ps, c :: cs => p = c && charsStartWith ps cs

/-- `charsContain pat s`: Python substring containment `pat in s`
(the empty pattern is contained in every string). -/
def charsContain (pat : List Char) : List Char → Bool
  | [] => charsStartWith pat []
  | s@(_ :: cs) => charsStartWith pat s || charsContain pat cs

/-- Python `pat in s` on strings. -/
def hasSubstr (s pat : String) : Bool :=
  charsContain pat.data s.data

/-- Whitespace characters recognised by Python `str.split()` with no
arguments: space, tab, newline, carriage return, vertical tab, form feed. -/
def isSpaceChar (c : Char) : Bool :=
  c.toNat = 32 || c.toNat = 9 || c.toNat = 10 || c.toNat = 13 ||
    c.toNat = 11 || c.toNat = 12

/-- Worker for `pySplit`: `cur` holds the current word, reversed. -/
def splitWsAux : List Char → List Char → List String
  | [], cur => if cur.isEmpty then [] else [String.mk cur.reverse]
  | c :: cs, cur =>
    if isSpaceChar c then
      if cur.isEmpty then splitWsAux cs [] else String.mk cur.reverse :: splitWsAux cs []
    else
      splitWsAux cs (c :: cur)

/-- Python `str.split()` with no arguments: split on runs of whitespace,
discarding empty pieces. -/
def pySplit (s : String) : List String :=
  splitWsAux s.data []

/-- ASCII lowercasing of one character.  Python `str.lower()` is full
Unicode; every string the module compares is ASCII, so the ASCII rule is
the faithful fragment. -/
def lowerChar (c : Char) : Char :=
  if 65 ≤ c.toNat ∧ c.toNat ≤ 90 then Char.ofNat (c.toNat + 32) else c

/-- Python `str.lower()` on the ASCII fragment. -/
def strLower (s : String) : String :=
  String.mk (s.data.map lowerChar)

/-- Python `str.startswith(pre)`. -/
def pyStartsWith (s pre : String) : Bool :=
  charsStartWith pre.data s.data

/-- Worker splitting a character list on `/`, dropping empty pieces. -/
def splitSlashAux : List Char → List Char → List String
  | [], cur => if cur.isEmpty then [] else [String.mk cur.reverse]
  | c :: cs, cur =>
    if c = '/' then
      if cur.isEmpty then splitSlashAux cs [] else String.mk cur.reverse :: splitSlashAux cs []
    else
      splitSlashAux cs (c :: cur)

/-- Components of a POSIX path string: split on `/`, dropping empty parts
(leading slash of an absolute path, repeated slashes). -/
def pathComponents (p : String) : List String :=
  splitSlashAux p.data []

/-- Python `pathlib.Path(p).name` for a POSIX path: the final path
component, or the empty string for the filesystem root. -/
def pathName (p : String) : String :=
  (pathComponents p).getLast?.getD ""

/-- Index of the last `.` in the character list, if any. -/
def lastDotIdx : List Char → Option Nat
  | [] => none
  | c :: cs =>
    match lastDotIdx cs with
    | some i => some (i + 1)
    | none => if c = '.' then some 0 else none

/-- Python `pathlib.Path(name).suffix`: the part of `name` from its last
dot onwards, provided that dot is neither the first nor the last
character; otherwise the empty string. -/
def fileSuffix (name : String) : String :=
  match lastDotIdx name.data with
  | some i => if 0 < i ∧ i + 1 < name.data.length then String.mk (name.data.drop i) else ""
  | none => ""

/-! ## MD5 (`hashlib.md5(...).hexdigest()`)

A byte-level implementation of RFC 1321 over `List Nat` (each element one
byte), with 32-bit words as `Nat` reduced mod `2 ^ 32`. -/

/-- UTF-8 encoding of one character, per Python `str.encode()`. -/
def charUtf8 (c : Char) : List Nat :=
  let n := c.toNat
  if n < 128 then [n]
  else if n < 2048 then [192 ||| (n >>> 6), 128 ||| (n &&& 63)]
  else if n < 65536 then
    [224 ||| (n >>> 12), 128 ||| ((n >>> 6) &&& 63), 128 ||| (n &&& 63)]
  else
    [240 ||| (n >>> 18), 128 ||| ((n >>> 12) &&& 63),
     128 ||| ((n >>> 6) &&& 63), 128 ||| (n &&& 63)]

/-- UTF-8 encoding of a string as a byte list. -/
def utf8Encode (s : String) : List Nat :=
  s.data.flatMap charUtf8

/-- Bitwise complement on 32-bit words. -/
def not32 (x : Nat) : Nat := x ^^^ 4294967295

/-- Left rotation of a 32-bit word. -/
def rotl32 (x n : Nat) : Nat :=
  ((x <<< n) ||| (x >>> (32 - n))) &&& 4294967295

/-- The 64 MD5 sine-derived constants. -/
def mdK : List Nat :=
  [0xd76aa478, 0xe8c7b756, 0x242070db, 0xc1bdceee,
   0xf57c0faf, 0x4787c62a, 0xa8304613, 0xfd469501,
   0x698098d8, 0x8b44f7af, 0xffff5bb1, 0x895cd7be,
   0x6b901122, 0xfd987193, 0xa679438e, 0x49b40821,
   0xf61e2562, 0xc040b340, 0x265e5a51, 0xe9b6c7aa,
   0xd62f105d, 0x02441453, 0xd8a1e681, 0xe7d3fbc8,
   0x21e1cde6, 0xc33707d6, 0xf4d50d87, 0x455a14ed,
   0xa9e3e905, 0xfcefa3f8, 0x676f02d9, 0x8d2a4c8a,
   0xfffa3942, 0x8771f681, 0x6d9d6122, 0xfde5380c,
   0xa4beea44, 0x4bdecfa9, 0xf6bb4b60, 0xbebfbc70,
   0x289b7ec6, 0xeaa127fa, 0xd4ef3085, 0x04881d05,
   0xd9d4d039, 0xe6db99e5, 0x1fa27cf8, 0xc4ac5665,
   0xf4292244, 0x432aff97, 0xab9423a7, 0xfc93a039,
   0x655b59c3, 0x8f0ccc92, 0xffeff47d, 0x85845dd1,
   0x6fa87e4f, 0xfe2ce6e0, 0xa3014314, 0x4e0811a1,
   0xf7537e82, 0xbd3af235, 0x2ad7d2bb, 0xeb86d391]

/-- The 64 MD5 per-round left-rotation amounts. -/
def mdS : List Nat :=
  [7, 12, 17, 22, 7, 12, 17, 22, 7, 12, 17, 22, 7, 12, 17, 22,
   5, 9, 14, 20, 5, 9, 14, 20, 5, 9, 14, 20, 5, 9, 14, 20,
   4, 11, 16, 23, 4, 11, 16, 23, 4, 11, 16, 23, 4, 11, 16, 23,
   6, 10, 15, 21, 6, 10, 15, 21, 6, 10, 15, 21, 6, 10, 15, 21]

/-- `k` least-significant bytes of `n`, little-endian. -/
def leBytes : Nat → Nat → List Nat
  | 0, _ => []
  | k + 1, n => (n % 256) :: leBytes k (n / 256)

/-- MD5 padding: a `0x80` byte, zero bytes up to 56 mod 64, then the
original length in bits as a 64-bit little-endian quantity. -/
def md5Pad (msg : List Nat) : List Nat :=
  let len := msg.length
  let zeros := (120 - (len + 1) % 64) % 64
  msg ++ [128] ++ List.replicate zeros 0 ++ leBytes 8 ((len * 8) % 18446744073709551616)

/-- Split a byte list into chunks of `n + 1` bytes. -/
def chunkList (n : Nat) : List Nat → List (List Nat)
  | [] => []
  | x :: xs => (x :: xs).take (n + 1) :: chunkList n ((x :: xs).drop (n + 1))
  termination_by l => l.length
  decreasing_by simp [List.length_drop]; omega

/-- Little-endian word value of a byte list. -/
def leWord (b : List Nat) : Nat :=
  b.foldr (fun x acc => x + 256 * acc) 0

/-- One MD5 round step on state `(a, b, c, d)` with message words `m`. -/
def md5Step (m : List Nat) (st : Nat × Nat × Nat × Nat) (i : Nat) :
    Nat × Nat × Nat × Nat :=
  let (a, b, c, d) := st
  let fg : Nat × Nat :=
    if i < 16 then ((b &&& c) ||| (not32 b &&& d), i)
    else if i < 32 then ((d &&& b) ||| (not32 d &&& c), (5 * i + 1) % 16)
    else if i < 48 then (b ^^^ c ^^^ d, (3 * i + 5) % 16)
    else (c ^^^ (b ||| not32 d), (7 * i) % 16)
  let f2 := (fg.1 + a + mdK.getD i 0 + m.getD fg.2 0) % 4294967296
  (d, (b + rotl32 f2 (mdS.getD i 0)) % 4294967296, b, c)

/-- Process one 64-byte chunk, updating the running digest state. -/
def md5Chunk (st : Nat × Nat × Nat × Nat) (chunk : List Nat) :
    Nat × Nat × Nat × Nat :=
  let m := (chunkList 3 chunk).map leWord
  let r := (List.range 64).foldl (fun s i => md5Step m s i) st
  ((st.1 + r.1) % 4294967296, (st.2.1 + r.2.1) % 4294967296,
   (st.2.2.1 + r.2.2.1) % 4294967296, (st.2.2.2 + r.2.2.2) % 4294967296)

/-- The 16-byte MD5 digest of a byte list. -/
def md5Bytes (msg : List Nat) : List Nat :=
  let init : Nat × Nat × Nat × Nat :=
    (1732584193, 4023233417, 2562383102, 271733878)
  let r := (chunkList 63 (md5Pad msg)).foldl md5Chunk init
  leBytes 4 r.1 ++ leBytes 4 r.2.1 ++ leBytes 4 r.2.2.1 ++ leBytes 4 r.2.2.2

/-- Lowercase hex character of a nibble. -/
def hexChar (n : Nat) : Char :=
  if n < 10 then Char.ofNat (48 + n) else Char.ofNat (87 + n)

/-- Lowercase hex rendering of one byte. -/
def byteHex (b : Nat) : List Char :=
  [hexChar (b / 16), hexChar (b % 16)]

/-- `hashlib.md5(bytes).hexdigest()`. -/
def md5Hex (msg : List Nat) : String :=
  String.mk ((md5Bytes msg).flatMap byteHex)

/-! ## Deterministic project id (`ContextIndex._get_deterministic_project_id`)

The Python method first resolves the argument with `Path(...).resolve()`;
the embedding takes the already-resolved absolute path string as input
(resolution is a filesystem operation and the claims quantify over
absolute paths). -/

/-- Source translation of `_get_deterministic_project_id`:
`f"{project_name}_{hash_digest}"` where `hash_digest` is the first 8 hex
characters of the MD5 of the absolute path and `project_name` is
`Path(project_path).name`. -/
def get_deterministic_project_id (abs_path : String) : String :=
  let hash_digest := (md5Hex (utf8Encode abs_path)).take 8
  let project_name := pathName abs_path
  project_name ++ "_" ++ hash_digest

/-- Reference definition following the words of the spec: the base name of
`P`, an underscore, and the first 8 hex characters of the MD5 digest of the
resolved absolute path string. -/
def spec_project_id (p : String) : String :=
  pathName p ++ "_" ++ (md5Hex (utf8Encode p)).take 8

/-! ## Python `round(x, 3)` modelled on `ℚ`

CPython rounds a float to the nearest multiple of `10 ^ (-3)` using
round-half-to-even.  The embedding works with exact rationals, so the
binary-representation error of `float` is not modelled. -/

/-- Floor of a rational as an integer; agrees with the mathematical floor
(`ratFloor_eq`) while staying kernel-reducible. -/
def ratFloor (x : ℚ) : ℤ :=
  x.num / (x.den : ℤ)

/-- Round a rational to the nearest integer, halves to even. -/
def roundHalfEven (x : ℚ) : ℤ :=
  let f := ratFloor x
  let r := x - f
  if r < 1 / 2 then f
  else if 1 / 2 < r then f + 1
  else if f % 2 = 0 then f else f + 1

/-- Python `round(x, 3)` on the rational model. -/
def pyRound3 (x : ℚ) : ℚ :=
  (roundHalfEven (x * 1000) : ℚ) / 1000

/-! ## Pattern recognition (`PatternRecognizer`) -/

/-- One entry of the static `AGENT_PATTERNS` catalogue: keyword list, base
weight and trigger threshold (the per-agent `triggers` sub-table of
`dpt-memory` is consumed by no claim and is not modelled). -/
structure AgentProfile where
  keywords : List String
  weight : ℚ
  threshold : ℚ
deriving DecidableEq

/-- The static `PatternRecognizer.AGENT_PATTERNS` catalogue. -/
def AGENT_PATTERNS : List (String × AgentProfile) :=
  [("dpt-memory",
    ⟨["remember", "learn", "lesson", "mistake", "context", "history",
      "previous", "last time", "before", "session", "save", "store"], 1, 1/10⟩),
   ("dpt-research",
    ⟨["research", "investigate", "find out", "best practice", "how to",
      "what is", "learn about", "explore", "study", "analyze", "understand"], 8/10, 3/10⟩),
   ("dpt-product",
    ⟨["requirement", "feature", "user story", "prd", "spec", "product",
      "acceptance criteria", "stakeholder", "business", "mvp"], 7/10, 4/10⟩),
   ("dpt-arch",
    ⟨["architecture", "design", "structure", "pattern", "system",
      "component", "module", "layer", "diagram", "tech stack", "scalab"], 8/10, 35/100⟩),
   ("dpt-scrum",
    ⟨["task", "breakdown", "sprint", "story", "epic", "backlog",
      "estimate", "priority", "plan", "decompose", "steps"], 7/10, 35/100⟩),
   ("dpt-dev",
    ⟨["implement", "code", "build", "create", "develop", "write",
      "fix", "bug", "feature", "function", "class", "method", "refactor"], 9/10, 2/10⟩),
   ("dpt-data",
    ⟨["database", "db", "sql", "query", "schema", "migration", "table",
      "model", "orm", "postgres", "mysql", "mongodb", "prisma", "data"], 85/100, 4/10⟩),
   ("dpt-api",
    ⟨["api", "endpoint", "rest", "graphql", "route", "controller",
      "http", "request", "response", "swagger", "openapi"], 85/100, 4/10⟩),
   ("dpt-ux",
    ⟨["ui", "ux", "frontend", "component", "page", "form", "button",
      "layout", "css", "style", "react", "vue", "interface", "design",
      "user experience", "responsive", "accessibility"], 8/10, 35/100⟩),
   ("dpt-qa",
    ⟨["test", "verify", "check", "validate", "qa", "quality",
      "bug", "issue", "unit test", "integration", "e2e", "coverage"], 85/100, 3/10⟩),
   ("dpt-sec",
    ⟨["security", "auth", "login", "password", "token", "jwt", "oauth",
      "encrypt", "vulnerab", "owasp", "xss", "csrf", "injection", "hack"], 9/10, 35/100⟩),
   ("dpt-perf",
    ⟨["performance", "optimize", "speed", "slow", "fast", "cache",
      "memory", "benchmark", "profil", "latency", "throughput"], 75/100, 4/10⟩),
   ("dpt-lead",
    ⟨["review", "code review", "approve", "merge", "pr", "pull request",
      "feedback", "suggest", "improve", "quality"], 7/10, 4/10⟩),
   ("dpt-ops",
    ⟨["deploy", "ci", "cd", "docker", "kubernetes", "pipeline", "aws",
      "azure", "server", "nginx", "hosting", "devops", "infrastructure"], 8/10, 4/10⟩),
   ("dpt-docs",
    ⟨["document", "readme", "guide", "tutorial", "comment", "jsdoc",
      "explain", "documentation", "wiki", "manual"], 6/10, 45/100⟩),
   ("dpt-grammar",
    ⟨["grammar", "spelling", "writing", "text", "prose", "english",
      "tone", "clarity", "readable"], 5/10, 5/10⟩),
   ("dpt-review",
    ⟨["simplify", "simple", "clean", "refactor", "complexity",
      "readable", "maintainable", "elegant"], 65/100, 4/10⟩),
   ("dpt-output",
    ⟨["summarize", "summary", "report", "output", "result", "final",
      "conclusion", "wrap up"], 9/10, 3/10⟩)]

/-- Python `agent in AGENT_PATTERNS` dict lookup. -/
def lookupAgent (agent : String) : Option AgentProfile :=
  (AGENT_PATTERNS.find? (fun p => p.1 = agent)).map (fun p => p.2)

/-- Association-list lookup modelling a Python dict read. -/
def lookupW (m : List (String × ℚ)) (k : String) : Option ℚ :=
  (m.find? (fun p => p.1 = k)).map (fun p => p.2)

/-- Python dict assignment `m[k] = v`: replace in place if the key exists,
else append at the end (dicts preserve insertion order). -/
def setW : List (String × ℚ) → String → ℚ → List (String × ℚ)
  | [], k, v => [(k, v)]
  | (k0, v0) :: r, k, v =>
    if k0 = k then (k0, v) :: r else (k0, v0) :: setW r k v

/-- The recognition history document (`recognition_history.json`): the
`recognitions` event list is consumed by no claim and is not modelled. -/
structure RecHistory where
  adjusted_weights : List (String × ℚ)
  accuracy_feedback : List (String × Bool)
deriving DecidableEq

/-- The fresh history `_load_history` produces when the file is absent. -/
def emptyHistory : RecHistory := ⟨[], []⟩

/-- The keyword-match accumulator of `calculate_confidence`: one point for
substring containment, plus a half point when the keyword is a whole
whitespace token of the prompt. -/
def countMatches (promptLower : String) (words : List String) :
    List String → ℚ
  | [] => 0
  | kw :: rest =>
    (if hasSubstr promptLower kw then
       (if kw ∈ words then (3 : ℚ) / 2 else 1)
     else 0) + countMatches promptLower words rest

/-- Scoring core of `calculate_confidence` for a keyword list and an
effective weight: raw match ratio, times the weight, capped at `1`, then
rounded to 3 decimals. -/
def scoreKeywords (keywords : List String) (weight : ℚ) (prompt : String) : ℚ :=
  let promptLower := strLower prompt
  let words := pySplit promptLower
  let matchCount := countMatches promptLower words keywords
  let total := keywords.length
  let base : ℚ := if total = 0 then 0 else matchCount / (total : ℚ)
  pyRound3 (min 1 (base * weight))

/-- `PatternRecognizer.calculate_confidence`: returns `0.0` for an unknown
agent; otherwise scores the profile keywords with the adjusted weight from
the history when one is stored, else the static base weight. -/
def calculate_confidence (hist : RecHistory) (prompt agent : String) : ℚ :=
  match lookupAgent agent with
  | none => 0
  | some pat =>
    let weight := (lookupW hist.adjusted_weights agent).getD pat.weight
    scoreKeywords pat.keywords weight prompt

/-- Base weight used for seeding:
`AGENT_PATTERNS.get(agent, {}).get('weight', 0.5)`. -/
def baseWeightOf (agent : String) : ℚ :=
  match lookupAgent agent with
  | some pat => pat.weight
  | none => 1 / 2

/-- `PatternRecognizer.provide_feedback`: append the feedback event, seed
the adjusted weight from the base weight when absent, then move it by the
learning rate `0.05`, clamped with `min 1.0` upward and `max 0.1`
downward. -/
def provide_feedback (hist : RecHistory) (agent : String) (wasHelpful : Bool) :
    RecHistory :=
  let fb := hist.accuracy_feedback ++ [(agent, wasHelpful)]
  let aw :=
    match lookupW hist.adjusted_weights agent with
    | none => setW hist.adjusted_weights agent (baseWeightOf agent)
    | some _ => hist.adjusted_weights
  let current := (lookupW aw agent).getD 0
  let newWeight :=
    if wasHelpful then min 1 (current + 1/20) else max (1/10) (current - 1/20)
  ⟨setW aw agent newWeight, fb⟩

/-- Fold a sequence of `provide_feedback` calls over a history. -/
def applyFeedbacks (calls : List (String × Bool)) (hist : RecHistory) :
    RecHistory :=
  calls.foldl (fun h c => provide_feedback h c.1 c.2) hist

/-! ## Project scanning (`ContextIndex._scan_project`)

The filesystem is modelled as a tree of named entries; directory children
are listed in the order `sorted(dir_path.iterdir())` produces, i.e. sorted
by name (permission errors, which the source swallows, are not modelled).
The `tree`, `type`/`framework` detection and `relationships` parts of the
produced index are consumed by no claim and are not modelled; the claims
concern `files`, `directories`, `key_files` and `stats`. -/

mutual

/-- A filesystem entry: a plain file or a directory with children. -/
inductive FSEntry where
  | file (name : String)
  | dir (name : String) (children : FSEntries)

/-- The children of a directory, in the order `sorted(dir.iterdir())`
produces them. -/
inductive FSEntries where
  | nil
  | cons (head : FSEntry) (tail : FSEntries)

end

/-- The `skip_dirs` deny list of `_scan_project`. -/
def skip_dirs : List String :=
  [".git", "node_modules", "__pycache__", ".venv", "venv",
   "dist", "build", ".next", ".nuxt", "target", "bin", "obj",
   ".idea", ".vscode", "coverage", ".pytest_cache"]

/-- The `skip_extensions` deny list of `_scan_project`. -/
def skip_extensions : List String :=
  [".pyc", ".pyo", ".exe", ".dll", ".so", ".dylib",
   ".jpg", ".jpeg", ".png", ".gif", ".ico", ".svg",
   ".woff", ".woff2", ".ttf", ".eot", ".mp3", ".mp4"]

/-- The `key_patterns` table of `_identify_key_file`, in its fixed
iteration order. -/
def key_patterns : List (String × List String) :=
  [("config", ["config", "settings", ".env", "tsconfig", "jsconfig"]),
   ("entry", ["main", "index", "app", "server", "__init__"]),
   ("package", ["package.json", "requirements.txt", "Cargo.toml", "go.mod"]),
   ("readme", ["readme", "README"]),
   ("test", ["test_", "_test", ".test.", ".spec."]),
   ("types", [".d.ts", "types.ts", "interfaces.ts"])]

/-- Append `rel` to the list stored under `cat`, creating the key at the
end when absent (Python dict insertion order). -/
def kfAppend : List (String × List String) → String → String →
    List (String × List String)
  | [], cat, rel => [(cat, [rel])]
  | (c, l) :: r, cat, rel =>
    if c = cat then (c, l ++ [rel]) :: r else (c, l) :: kfAppend r cat rel

/-- `ContextIndex._identify_key_file`: for each category whose pattern list
has a case-insensitive substring match against the file name, append the
relative path once to that category (the `break` in the source only leaves
the inner pattern loop, so every matching category receives the file). -/
def identify_key_file (name rel : String)
    (kf : List (String × List String)) : List (String × List String) :=
  let nameLower := strLower name
  key_patterns.foldl
    (fun acc cp =>
      if cp.2.any (fun pat => hasSubstr nameLower (strLower pat)) then
        kfAppend acc cp.1 rel
      else acc)
    kf

/-- Increment the count stored under extension `k`, inserting it at the
end when absent (`by_extension.get(ext, 0) + 1`). -/
def bumpExt : List (String × Nat) → String → List (String × Nat)
  | [], k => [(k, 1)]
  | (k0, v) :: r, k =>
    if k0 = k then (k0, v + 1) :: r else (k0, v) :: bumpExt r k

/-- The structural index document (`project_index.json`), restricted to the
fields the claims are about.  Counters are integers because the `deleted`
branch of the incremental update decrements them. -/
structure ProjectIndex where
  files : List String
  directories : List String
  key_files : List (String × List String)
  total_files : Int
  total_dirs : Int
  by_extension : List (String × Nat)
deriving DecidableEq

/-- The index every scan starts from. -/
def emptyIndex : ProjectIndex := ⟨[], [], [], 0, 0, []⟩

/-- One directory level of `_scan_project.scan_dir`, walking a list of
(sorted) sibling entries; `recurse` performs the scan of a child
directory.  A child-directory recursion completes before the directory
itself is appended to `directories`, exactly as in the source. -/
def scanStep (recurse : FSEntries → String → ProjectIndex → ProjectIndex) :
    FSEntries → String → ProjectIndex → ProjectIndex
  | .nil, _, acc => acc
  | .cons (.file name) rest, relPath, acc =>
    let itemRel := if relPath = "" then name else relPath ++ "/" ++ name
    let suffixLower := strLower (fileSuffix name)
    let acc :=
      if suffixLower ∈ skip_extensions then acc
      else
        let ext := if suffixLower = "" then "no_ext" else suffixLower
        { acc with
            files := acc.files ++ [itemRel],
            total_files := acc.total_files + 1,
            by_extension := bumpExt acc.by_extension ext,
            key_files := identify_key_file name itemRel acc.key_files }
    scanStep recurse rest relPath acc
  | .cons (.dir name children) rest, relPath, acc =>
    let itemRel := if relPath = "" then name else relPath ++ "/" ++ name
    let acc :=
      if name ∈ skip_dirs || pyStartsWith name "." then acc
      else
        let acc := recurse children itemRel acc
        { acc with
            directories := acc.directories ++ [itemRel],
            total_dirs := acc.total_dirs + 1 }
    scanStep recurse rest relPath acc

mutual

/-- Size of one filesystem entry, bounding the nesting depth below it. -/
def fsEntrySize : FSEntry → Nat
  | .file _ => 1
  | .dir _ children => fsEntriesSize children + 1

/-- Size of a sibling list, bounding the nesting depth below it. -/
def fsEntriesSize : FSEntries → Nat
  | .nil => 1
  | .cons e rest => fsEntrySize e + fsEntriesSize rest

end

/-- Depth-indexed scan: descending into a child directory consumes one
unit of fuel.  Any fuel at least the nesting depth of the tree gives the
recursion of the source; `scan_project` supplies `fsEntriesSize`, which
always suffices. -/
def scanFuel : Nat → FSEntries → String → ProjectIndex → ProjectIndex
  | 0, _, _, acc => acc
  | fuel + 1, entries, relPath, acc => scanStep (scanFuel fuel) entries relPath acc

/-- `ContextIndex._scan_project` on a filesystem tree. -/
def scan_project (fs : FSEntries) : ProjectIndex :=
  scanFuel (fsEntriesSize fs) fs "" emptyIndex

/-! ## Persisted store of one project and its operations

`Store` bundles the on-disk documents of a single project that the cited
operations read and write: the structural index, the quick-lookup
`files.json`, and the `projects_indexed` marker of the global index (only
its `indexed_at` day counter steers control flow).  A raised Python
exception is modelled by the second component of the result: the returned
store is the disk state at the moment of the raise. -/

/-- The Python exceptions the embedding distinguishes. -/
inductive PyErr where
  | valueError
deriving DecidableEq

/-- The quick-lookup `files.json` document, restricted to the fields the
claims compare (timestamps and the `last_change` marker are not
modelled). -/
structure FilesJson where
  files : List String
  directories : List String
  key_files : List (String × List String)
deriving DecidableEq

/-- Persisted state of one project. -/
structure Store where
  projectIndexDoc : Option ProjectIndex
  filesJsonDoc : Option FilesJson
  indexedAt : Option Nat
deriving DecidableEq

/-- The state before any operation ran. -/
def emptyStore : Store := ⟨none, none, none⟩

/-- `str(Path(filePath).relative_to(projectPath))` on resolved POSIX
paths: `none` models the `ValueError` raised when `filePath` is not under
`projectPath`. -/
def relative_to (filePath projectPath : String) : Option String :=
  let f := pathComponents filePath
  let p := pathComponents projectPath
  if p.isPrefixOf f then
    let r := f.drop p.length
    some (if r.isEmpty then "." else String.intercalate "/" r)
  else none

/-- `ContextIndex.update_project_tree`: load the index (silent return when
absent), compute the relative path (raising `ValueError` when `filePath`
is not under the project), patch `files` and `stats` according to the
action, and write the index back. -/
def update_project_tree (st : Store) (projectPath filePath action : String) :
    Store × Option PyErr :=
  match st.projectIndexDoc with
  | none => (st, none)
  | some idx =>
    match relative_to filePath projectPath with
    | none => (st, some PyErr.valueError)
    | some rel =>
      let idx :=
        if action = "created" then
          if rel ∈ idx.files then idx
          else
            let suffixLower := strLower (fileSuffix (pathName filePath))
            let ext := if suffixLower = "" then "no_ext" else suffixLower
            { idx with
                files := idx.files ++ [rel],
                total_files := idx.total_files + 1,
                by_extension := bumpExt idx.by_extension ext }
        else if action = "deleted" then
          if rel ∈ idx.files then
            { idx with
                files := idx.files.erase rel,
                total_files := idx.total_files - 1 }
          else idx
        else idx
      ({ st with projectIndexDoc := some idx }, none)

/-- `ContextIndex.update_on_file_change`: run `update_project_tree`, then
reload the index and, when present, rewrite `files.json` from it (the
global `record_file_modified` bookkeeping is consumed by no claim and is
not modelled). -/
def update_on_file_change (st : Store) (projectPath filePath action : String) :
    Store × Option PyErr :=
  let r := update_project_tree st projectPath filePath action
  match r.2 with
  | some e => (r.1, some e)
  | none =>
    match r.1.projectIndexDoc with
    | none => (r.1, none)
    | some idx =>
      ({ r.1 with filesJsonDoc := some ⟨idx.files, idx.directories, idx.key_files⟩ },
       none)

/-- `ContextIndex.index_project`: when not forced and the `indexed_at`
marker is fresh (less than 7 days old), return the persisted index without
touching disk; otherwise scan, persist the result and refresh the
marker. -/
def index_project (fs : FSEntries) (now : Nat) (force : Bool) (st : Store) :
    Option ProjectIndex × Store :=
  let fresh :=
    match st.indexedAt with
    | some t => now - t < 7
    | none => false
  if !force && fresh then (st.projectIndexDoc, st)
  else
    let idx := scan_project fs
    (some idx, { st with projectIndexDoc := some idx, indexedAt := some now })

/-- The part of the `initialize_project_memory` return value the claims
inspect. -/
structure InitResult where
  is_first_time : Bool
  file_count : Int
deriving DecidableEq

/-- `ContextIndex.initialize_project_memory`: index the project (forcing a
scan on first use) and rewrite `files.json` from the resulting index.
`none` models the `AttributeError` the source raises when `index_project`
hands back `None` (marker fresh but index document missing); `STRUCTURE.md`
generation and the one-time creation of the yaml memory files write no
claim-relevant state and are not modelled. -/
def initialize_project_memory (fs : FSEntries) (now : Nat) (st : Store) :
    Option (InitResult × Store) :=
  let is_first_time := st.indexedAt.isNone
  let r := index_project fs now is_first_time st
  match r.1 with
  | none => none
  | some idx =>
    some (⟨is_first_time, idx.total_files⟩,
      { r.2 with filesJsonDoc := some ⟨idx.files, idx.directories, idx.key_files⟩ })

/-! ## Mistake ledger (`ContextIndex.record_mistake`) -/

/-- The caller-supplied mistake dict; every field read with `.get`. -/
structure Mistake where
  agent : Option String
  description : Option String
  context : Option String
  prevention : Option String
  severity : Option String
deriving DecidableEq

/-- One appended ledger entry (the timestamp-derived `id` and `date`
fields are not modelled). -/
structure MistakeEntry where
  project : String
  agent : String
  mistake : String
  context : String
  prevention : String
  severity : String
deriving DecidableEq

/-- The yaml entry text `record_mistake` builds, as a structured value. -/
def mkMistakeEntry (projectPath : String) (m : Mistake) : MistakeEntry :=
  ⟨pathName projectPath,
   m.agent.getD "unknown",
   m.description.getD "Unknown mistake",
   m.context.getD "",
   m.prevention.getD "Be more careful",
   m.severity.getD "medium"⟩

/-- `ContextIndex.record_mistake` acting on the pair (project ledger,
global ledger): the entry is always appended to the project ledger, and
also to the global ledger exactly when `mistake.get('severity')` is
`'high'`. -/
def record_mistake (projLedger globalLedger : List MistakeEntry)
    (projectPath : String) (m : Mistake) :
    List MistakeEntry × List MistakeEntry :=
  let entry := mkMistakeEntry projectPath m
  (projLedger ++ [entry],
   if m.severity = some "high" then globalLedger ++ [entry] else globalLedger)

/-! ## Derived notions and concrete inputs used by the claims -/

/-- Sum of the per-extension counters of `stats.by_extension`. -/
def sumExtCounts (m : List (String × Nat)) : Nat :=
  (m.map Prod.snd).sum

/-- The consistency predicate of claim C4: both documents are present and
list the same `files` and `directories`. -/
def docsAgree (st : Store) : Bool :=
  match st.projectIndexDoc, st.filesJsonDoc with
  | some idx, some fj => fj.files == idx.files && fj.directories == idx.directories
  | _, _ => false

/-- A one-file persisted index used as concrete input. -/
def sampleIndex : ProjectIndex := ⟨["a.py"], [], [], 1, 0, [(".py", 1)]⟩

/-- A store holding `sampleIndex` as the persisted structural index. -/
def sampleStore : Store := ⟨some sampleIndex, none, none⟩

/-- A one-file project tree. -/
def c4fs1 : FSEntries := .cons (.file "a.py") .nil

/-- The same project tree after a second file appeared on disk. -/
def c4fs2 : FSEntries := .cons (.file "a.py") (.cons (.file "b.py") .nil)

/-- First-time initialization of the one-file project. -/
def c4run1 : Option (InitResult × Store) :=
  initialize_project_memory c4fs1 0 emptyStore

/-- The store after that initialization. -/
def c4st1 : Store := (c4run1.getD ⟨⟨true, 0⟩, emptyStore⟩).2

/-- The store after a subsequent forced full re-index against the changed
tree `c4fs2`. -/
def c4st2 : Store := (index_project c4fs2 0 true c4st1).2

/-- A recognition-history document with a hand-stored negative adjusted
weight, as `_load_history` would accept from a hand-edited
`recognition_history.json`. -/
def negWeightHistory : RecHistory := ⟨[("dpt-dev", -1)], []⟩

/-- Every learned weight stored in the history lies in `[0.1, 1.0]`. -/
def weightsInv (hist : RecHistory) : Prop :=
  ∀ a w, lookupW hist.adjusted_weights a = some w → 1/10 ≤ w ∧ w ≤ 1

/-! ## Supporting lemmas -/

/-- The executable floor agrees with the mathematical floor. -/
theorem ratFloor_eq (x : ℚ) : ratFloor x = ⌊x⌋ :=
  Rat.floor_def.symm

/-- Half-even rounding never overshoots by more than one half. -/
theorem roundHalfEven_le (x : ℚ) : (roundHalfEven x : ℚ) ≤ x + 1 / 2 := by
  have h1 : ((⌊x⌋ : ℤ) : ℚ) ≤ x := Int.floor_le x
  have h2 : x < (⌊x⌋ : ℤ) + 1 := Int.lt_floor_add_one x
  simp only [roundHalfEven, ratFloor_eq]
  split_ifs <;> push_cast <;> linarith

/-- Half-even rounding never undershoots by more than one half. -/
theorem le_roundHalfEven (x : ℚ) : x - 1 / 2 ≤ (roundHalfEven x : ℚ) := by
  have h1 : ((⌊x⌋ : ℤ) : ℚ) ≤ x := Int.floor_le x
  have h2 : x < (⌊x⌋ : ℤ) + 1 := Int.lt_floor_add_one x
  simp only [roundHalfEven, ratFloor_eq]
  split_ifs <;> push_cast <;> linarith

/-- Half-even rounding of a nonnegative rational is nonnegative. -/
theorem roundHalfEven_nonneg (x : ℚ) (h : 0 ≤ x) : 0 ≤ roundHalfEven x := by
  have hf : 0 ≤ ⌊x⌋ := Int.floor_nonneg.mpr h
  simp only [roundHalfEven, ratFloor_eq]
  split_ifs <;> omega

/-- Half-even rounding respects integer upper bounds. -/
theorem roundHalfEven_le_int (x : ℚ) (n : ℤ) (h : x ≤ n) : roundHalfEven x ≤ n := by
  have h2 : (roundHalfEven x : ℚ) < (n : ℚ) + 1 := by
    have := roundHalfEven_le x
    linarith
  have h3 : roundHalfEven x < n + 1 := by exact_mod_cast h2
  omega

/-- `round(x, 3)` of a nonnegative value is nonnegative. -/
theorem pyRound3_nonneg (x : ℚ) (h : 0 ≤ x) : 0 ≤ pyRound3 x := by
  unfold pyRound3
  apply div_nonneg _ (by norm_num)
  exact_mod_cast roundHalfEven_nonneg (x * 1000) (by positivity)

/-- `round(x, 3)` of a value at most one is at most one. -/
theorem pyRound3_le_one (x : ℚ) (h : x ≤ 1) : pyRound3 x ≤ 1 := by
  unfold pyRound3
  rw [div_le_one (by norm_num)]
  have h1 : roundHalfEven (x * 1000) ≤ 1000 :=
    roundHalfEven_le_int _ 1000 (by push_cast; linarith)
  exact_mod_cast h1

/-- `round(x, 3)` moves the value up by at most half a thousandth. -/
theorem pyRound3_le (x : ℚ) : pyRound3 x ≤ x + 1 / 2000 := by
  unfold pyRound3
  have h1 : (roundHalfEven (x * 1000) : ℚ) ≤ x * 1000 + 1 / 2 := roundHalfEven_le _
  linarith

/-- `round(x, 3)` moves the value down by at most half a thousandth. -/
theorem le_pyRound3 (x : ℚ) : x - 1 / 2000 ≤ pyRound3 x := by
  unfold pyRound3
  have h1 : x * 1000 - 1 / 2 ≤ (roundHalfEven (x * 1000) : ℚ) := le_roundHalfEven _
  linarith

/-- Every static base weight of the catalogue lies in `[0.5, 1.0]`. -/
theorem agent_patterns_weights :
    ∀ pr ∈ AGENT_PATTERNS, 1/2 ≤ pr.2.weight ∧ pr.2.weight ≤ 1 := by
  with_unfolding_all decide

/-- A successful catalogue lookup returns a profile whose base weight lies
in `[0.5, 1.0]`. -/
theorem lookupAgent_weight_bounds (a : String) (pat : AgentProfile)
    (h : lookupAgent a = some pat) : 1/2 ≤ pat.weight ∧ pat.weight ≤ 1 := by
  unfold lookupAgent at h
  cases hf : AGENT_PATTERNS.find? (fun p => p.1 = a) with
  | none => rw [hf] at h; simp at h
  | some p =>
    rw [hf] at h
    simp only [Option.map_some'] at h
    have hm : p ∈ AGENT_PATTERNS := List.mem_of_find?_eq_some hf
    have hb := agent_patterns_weights p hm
    have hpe : p.2 = pat := Option.some.inj h
    rw [← hpe]
    exact hb

/-- The seeding base weight always lies in `[0.1, 1.0]`. -/
theorem baseWeightOf_bounds (a : String) :
    1/10 ≤ baseWeightOf a ∧ baseWeightOf a ≤ 1 := by
  unfold baseWeightOf
  cases h : lookupAgent a with
  | none => norm_num
  | some pat =>
    have := lookupAgent_weight_bounds a pat h
    constructor <;> linarith [this.1, this.2]

/-- Looking up the key just written by `setW` yields the written value. -/
theorem lookupW_setW_self (m : List (String × ℚ)) (k : String) (v : ℚ) :
    lookupW (setW m k v) k = some v := by
  induction m with
  | nil => simp [setW, lookupW]
  | cons p r ih =>
    obtain ⟨k0, v0⟩ := p
    by_cases h : k0 = k
    · simp [setW, h, lookupW]
    · simp only [setW, if_neg h]
      simpa [lookupW, List.find?, h] using ih

/-- `setW` leaves other keys untouched. -/
theorem lookupW_setW_ne (m : List (String × ℚ)) (k k2 : String) (v : ℚ)
    (h : k2 ≠ k) : lookupW (setW m k v) k2 = lookupW m k2 := by
  have h2 : ¬ (k = k2) := fun hh => h hh.symm
  induction m with
  | nil => simp [setW, lookupW, List.find?, h2]
  | cons p r ih =>
    obtain ⟨k0, v0⟩ := p
    by_cases hk : k0 = k
    · subst hk
      simp [setW, lookupW, List.find?, h2]
    · simp only [setW, if_neg hk]
      by_cases hk2 : k0 = k2
      · simp [lookupW, List.find?, hk2]
      · simpa [lookupW, List.find?, hk2] using ih

/-- The keyword-match accumulator is nonnegative. -/
theorem countMatches_nonneg (p : String) (w : List String) (ks : List String) :
    0 ≤ countMatches p w ks := by
  induction ks with
  | nil => simp [countMatches]
  | cons kw rest ih =>
    simp only [countMatches]
    have hb : (0 : ℚ) ≤
        (if hasSubstr p kw then (if kw ∈ w then (3 : ℚ) / 2 else 1) else 0) := by
      split_ifs <;> norm_num
    linarith

/-- Appending under a key absent from the accumulator pushes a fresh
singleton entry at the end. -/
theorem kfAppend_not_mem (m : List (String × List String)) (cat rel : String)
    (h : cat ∉ m.map Prod.fst) : kfAppend m cat rel = m ++ [(cat, [rel])] := by
  induction m with
  | nil => rfl
  | cons p r ih =>
    obtain ⟨c, l⟩ := p
    simp only [List.map_cons, List.mem_cons] at h
    push_neg at h
    simp only [kfAppend, if_neg (Ne.symm h.1), List.cons_append,
      List.cons.injEq, true_and]
    exact ih h.2

/-- The category fold of `_identify_key_file`, over any pattern table with
distinct category names and categories disjoint from the accumulator,
appends exactly one singleton entry per matching category. -/
theorem foldKf (q : String × List String → Bool) (rel : String) :
    ∀ (plist : List (String × List String)) (acc : List (String × List String)),
      (plist.map Prod.fst).Nodup →
      (∀ c ∈ plist.map Prod.fst, c ∉ acc.map Prod.fst) →
      plist.foldl (fun a cp => if q cp then kfAppend a cp.1 rel else a) acc =
        acc ++ (plist.filter q).map (fun cp => (cp.1, [rel])) := by
  intro plist
  induction plist with
  | nil => intro acc _ _; simp
  | cons cp rest ih =>
    intro acc hnd hdisj
    have hnd2 : (rest.map Prod.fst).Nodup := by
      simpa using hnd.of_cons
    have hhead : cp.1 ∉ rest.map Prod.fst := by
      have := hnd
      simp only [List.map_cons, List.nodup_cons] at this
      exact this.1
    by_cases hq : q cp
    · have hmem : cp.1 ∉ acc.map Prod.fst := hdisj cp.1 (by simp)
      have hdisj2 : ∀ c ∈ rest.map Prod.fst,
          c ∉ (acc ++ [(cp.1, [rel])]).map Prod.fst := by
        intro c hc
        simp only [List.map_append, List.mem_append, List.map_cons,
          List.map_nil, List.mem_singleton]
        push_neg
        constructor
        · exact hdisj c (by simp [hc])
        · intro hce
          exact hhead (hce ▸ hc)
      simp only [List.foldl_cons, if_pos hq, List.filter_cons_of_pos hq,
        List.map_cons]
      rw [kfAppend_not_mem acc cp.1 rel hmem, ih (acc ++ [(cp.1, [rel])]) hnd2 hdisj2]
      simp
    · have hdisj2 : ∀ c ∈ rest.map Prod.fst, c ∉ acc.map Prod.fst := by
        intro c hc
        exact hdisj c (by simp [hc])
      simp only [List.foldl_cons, if_neg hq, List.filter_cons_of_neg hq]
      exact ih acc hnd2 hdisj2

/-- The adjusted weight of the agent just given feedback is exactly the
clamped learning-rate move from its previous effective weight. -/
theorem provide_feedback_lookup (hist : RecHistory) (agent : String) (b : Bool) :
    lookupW (provide_feedback hist agent b).adjusted_weights agent =
      some
        (if b then
          min 1 (((lookupW hist.adjusted_weights agent).getD (baseWeightOf agent)) + 1/20)
        else
          max (1/10) (((lookupW hist.adjusted_weights agent).getD (baseWeightOf agent)) - 1/20)) := by
  unfold provide_feedback
  cases h : lookupW hist.adjusted_weights agent with
  | none => simp [h, lookupW_setW_self]
  | some w => simp [h, lookupW_setW_self]

/-- Feedback for one agent leaves the stored weights of other agents
unchanged. -/
theorem provide_feedback_lookup_ne (hist : RecHistory) (agent : String) (b : Bool)
    (a2 : String) (h : a2 ≠ agent) :
    lookupW (provide_feedback hist agent b).adjusted_weights a2 =
      lookupW hist.adjusted_weights a2 := by
  unfold provide_feedback
  cases hl : lookupW hist.adjusted_weights agent with
  | none => simp [hl, lookupW_setW_ne _ _ _ _ h]
  | some w => simp [hl, lookupW_setW_ne _ _ _ _ h]

/-- One feedback step preserves the `[0.1, 1.0]` invariant on all stored
weights. -/
theorem provide_feedback_inv (hist : RecHistory) (hinv : weightsInv hist)
    (agent : String) (b : Bool) : weightsInv (provide_feedback hist agent b) := by
  intro a w hw
  by_cases ha : a = agent
  · subst ha
    rw [provide_feedback_lookup] at hw
    have hcur : 1/10 ≤ (lookupW hist.adjusted_weights a).getD (baseWeightOf a) ∧
        (lookupW hist.adjusted_weights a).getD (baseWeightOf a) ≤ 1 := by
      cases h : lookupW hist.adjusted_weights a with
      | none => simpa using baseWeightOf_bounds a
      | some w0 => simpa using hinv a w0 h
    have hw2 := Option.some.inj hw
    cases b with
    | true =>
      simp only [if_pos rfl] at hw2
      constructor
      · rw [← hw2]
        exact le_min (by norm_num) (by linarith [hcur.1])
      · rw [← hw2]
        exact min_le_left _ _
    | false =>
      simp only [Bool.false_eq_true, if_neg] at hw2
      constructor
      · rw [← hw2]
        exact le_max_left _ _
      · rw [← hw2]
        exact max_le (by norm_num) (by linarith [hcur.2])
  · rw [provide_feedback_lookup_ne hist agent b a ha] at hw
    exact hinv a w hw

/-- Any sequence of feedback calls preserves the weight invariant. -/
theorem applyFeedbacks_inv (calls : List (String × Bool)) :
    ∀ hist, weightsInv hist → weightsInv (applyFeedbacks calls hist) := by
  induction calls with
  | nil => intro hist h; exact h
  | cons c rest ih =>
    intro hist h
    exact ih _ (provide_feedback_inv hist h c.1 c.2)

/-- The score of a keyword list under a nonnegative weight lies in
`[0, 1]`. -/
theorem scoreKeywords_bounds (keywords : List String) (weight : ℚ)
    (prompt : String) (hw : 0 ≤ weight) :
    0 ≤ scoreKeywords keywords weight prompt ∧
      scoreKeywords keywords weight prompt ≤ 1 := by
  unfold scoreKeywords
  have hbase : (0 : ℚ) ≤
      (if keywords.length = 0 then (0 : ℚ)
       else countMatches (strLower prompt) (pySplit (strLower prompt)) keywords /
         (keywords.length : ℚ)) := by
    split_ifs with h
    · exact le_refl 0
    · exact div_nonneg (countMatches_nonneg _ _ _) (by positivity)
  constructor
  · exact pyRound3_nonneg _ (le_min (by norm_num) (mul_nonneg hbase hw))
  · exact pyRound3_le_one _ (min_le_left _ _)

/-- The structural-index document returned by `index_project` is exactly
what it leaves persisted. -/
theorem index_project_doc_eq (fs : FSEntries) (now : Nat) (force : Bool)
    (st : Store) :
    (index_project fs now force st).2.projectIndexDoc =
      (index_project fs now force st).1 := by
  unfold index_project
  rcases hi : st.indexedAt with _ | t <;> simp only [hi] <;> split <;> rfl

/-- `update_project_tree` never discards a present index document. -/
theorem update_project_tree_keeps_doc (st : Store) (pp fp a : String)
    (h : st.projectIndexDoc.isSome = true) :
    (update_project_tree st pp fp a).1.projectIndexDoc.isSome = true := by
  unfold update_project_tree
  cases hd : st.projectIndexDoc with
  | none => rw [hd] at h; simp at h
  | some idx =>
    cases hr : relative_to fp pp <;> simp [hd, hr]

/-! ## Claim theorems -/

/-- Claim C1: for every resolved absolute project path, the project id is
a pure function of the path equal to the reference definition — the base
name, an underscore, and the first 8 hex characters of the MD5 digest of
the path — so computing it twice yields the identical string. -/
theorem c1_project_id_deterministic (p : String) :
    get_deterministic_project_id p = spec_project_id p ∧
      get_deterministic_project_id p = get_deterministic_project_id p :=
  ⟨rfl, rfl⟩

/-- Claim C2 (code bug): with a persisted index present, an incremental
update for a file outside the project raises `ValueError` from
`Path.relative_to` instead of the silent no-op the spec requires; the
persisted index is left unchanged because the raise precedes any write. -/
theorem c2_update_outside_project_raises (action : String) :
    update_on_file_change sampleStore "/proj" "/other/file.txt" action =
      (sampleStore, some PyErr.valueError) :=
  rfl

/-- Claim C3 counterexample: a full scan of a project holding the single
file `app.test.js` lists that path under both the `entry` and the `test`
categories, so a file is not assigned to at most one category. -/
theorem c3_two_categories_counterexample :
    (scan_project (.cons (.file "app.test.js") .nil)).key_files =
      [("entry", ["app.test.js"]), ("test", ["app.test.js"])] := by
  decide

/-- Claim C3 as amended: a retained file is classified into every category
with a matching pattern, in the fixed iteration order of the pattern
table, receiving at most one entry per category (the `break` only stops
the inner pattern loop). -/
theorem c3_key_file_every_matching_category (name rel : String) :
    identify_key_file name rel [] =
      (key_patterns.filter
        (fun cp => cp.2.any (fun pat => hasSubstr (strLower name) (strLower pat)))).map
        (fun cp => (cp.1, [rel])) := by
  have h := foldKf
    (fun cp => cp.2.any (fun pat => hasSubstr (strLower name) (strLower pat))) rel
    key_patterns [] (by decide) (by simp)
  simpa [identify_key_file] using h

/-- Claim C9: `record_mistake` always appends the entry to the project
ledger, and appends it to the global ledger exactly when the severity of
the recorded mistake is `high`; any other severity leaves the global
ledger untouched. -/
theorem c9_record_mistake_ledgers (projL globalL : List MistakeEntry)
    (p : String) (m : Mistake) :
    (record_mistake projL globalL p m).1 = projL ++ [mkMistakeEntry p m] ∧
    ((record_mistake projL globalL p m).2 = globalL ++ [mkMistakeEntry p m] ↔
      m.severity = some "high") ∧
    (m.severity ≠ some "high" → (record_mistake projL globalL p m).2 = globalL) := by
  refine ⟨rfl, ?_, ?_⟩
  · by_cases h : m.severity = some "high"
    · simp [record_mistake, h]
    · simp [record_mistake, h]
  · intro h
    simp [record_mistake, h]

/-- Claim C9 witness: recording a high-severity mistake on empty ledgers
puts the entry in the global ledger. -/
theorem c9_record_mistake_witness :
    (record_mistake [] [] "/p" ⟨none, none, none, none, some "high"⟩).2 =
      [mkMistakeEntry "/p" ⟨none, none, none, none, some "high"⟩] :=
  ((c9_record_mistake_ledgers [] [] "/p" ⟨none, none, none, none, some "high"⟩).2.1).mpr rfl

/-- Claim C5: with a persisted index of file set `F`, the incremental
patch appends a new relative path on `created` (no-op when already
present) incrementing `total_files` by one, removes a present path on
`deleted` (for a duplicate-free list) decrementing by one, and leaves
files and `total_files` unchanged on `modified`. -/
theorem c5_incremental_update_files_stats (st : Store) (pp fp f : String)
    (idx : ProjectIndex) (hdoc : st.projectIndexDoc = some idx)
    (hrel : relative_to fp pp = some f) :
    (f ∉ idx.files →
      ∃ idx2,
        update_project_tree st pp fp "created" =
          ({ st with projectIndexDoc := some idx2 }, none) ∧
        idx2.files = idx.files ++ [f] ∧
        (∀ x, x ∈ idx2.files ↔ x ∈ idx.files ∨ x = f) ∧
        idx2.total_files = idx.total_files + 1) ∧
    (f ∈ idx.files →
      update_project_tree st pp fp "created" =
        ({ st with projectIndexDoc := some idx }, none)) ∧
    (f ∈ idx.files → idx.files.Nodup →
      ∃ idx2,
        update_project_tree st pp fp "deleted" =
          ({ st with projectIndexDoc := some idx2 }, none) ∧
        idx2.files = idx.files.erase f ∧
        (∀ x, x ∈ idx2.files ↔ x ∈ idx.files ∧ x ≠ f) ∧
        idx2.total_files = idx.total_files - 1) ∧
    update_project_tree st pp fp "modified" =
      ({ st with projectIndexDoc := some idx }, none) := by
  refine ⟨?_, ?_, ?_, ?_⟩
  · intro hf
    refine ⟨{ idx with
        files := idx.files ++ [f],
        total_files := idx.total_files + 1,
        by_extension := bumpExt idx.by_extension
          (if strLower (fileSuffix (pathName fp)) = "" then "no_ext"
           else strLower (fileSuffix (pathName fp))) }, ?_, rfl, ?_, rfl⟩
    · simp [update_project_tree, hdoc, hrel, hf]
    · intro x
      simp [List.mem_append]
  · intro hf
    simp [update_project_tree, hdoc, hrel, hf]
  · intro hf hnd
    refine ⟨{ idx with
        files := idx.files.erase f,
        total_files := idx.total_files - 1 }, ?_, rfl, ?_, rfl⟩
    · simp [update_project_tree, hdoc, hrel, hf]
    · intro x
      constructor
      · intro hx
        have := (List.Nodup.mem_erase_iff hnd).mp hx
        exact ⟨this.2, this.1⟩
      · intro hx
        exact (List.Nodup.mem_erase_iff hnd).mpr ⟨hx.2, hx.1⟩
  · simp [update_project_tree, hdoc, hrel]

/-- Claim C5 witness: creating `b.py` in a one-file project appends it and
bumps the counter. -/
theorem c5_incremental_update_witness :
    ∃ idx2,
      update_project_tree sampleStore "/p" "/p/b.py" "created" =
        ({ sampleStore with projectIndexDoc := some idx2 }, none) ∧
      idx2.files = sampleIndex.files ++ ["b.py"] ∧
      (∀ x, x ∈ idx2.files ↔ x ∈ sampleIndex.files ∨ x = "b.py") ∧
      idx2.total_files = sampleIndex.total_files + 1 :=
  (c5_incremental_update_files_stats sampleStore "/p" "/p/b.py" "b.py" sampleIndex
    rfl rfl).1 (by decide)

/-- Claim C10: a `deleted` incremental update leaves `by_extension`
completely unchanged while decrementing `total_files`, so after a deletion
the summed per-extension counts can exceed `total_files`, as the concrete
one-file run in the second conjunct shows. -/
theorem c10_deleted_keeps_by_extension (st : Store) (pp fp f : String)
    (idx : ProjectIndex) (hdoc : st.projectIndexDoc = some idx)
    (hrel : relative_to fp pp = some f) (hmem : f ∈ idx.files) :
    (∃ idx2,
      update_project_tree st pp fp "deleted" =
        ({ st with projectIndexDoc := some idx2 }, none) ∧
      idx2.by_extension = idx.by_extension ∧
      idx2.total_files = idx.total_files - 1) ∧
    (∃ j, (update_project_tree sampleStore "/p" "/p/a.py" "deleted").1.projectIndexDoc =
        some j ∧ j.total_files < (sumExtCounts j.by_extension : Int)) := by
  constructor
  · refine ⟨{ idx with
        files := idx.files.erase f,
        total_files := idx.total_files - 1 }, ?_, rfl, rfl⟩
    simp [update_project_tree, hdoc, hrel, hmem]
  · refine ⟨_, rfl, ?_⟩
    decide

/-- Claim C10 witness: deleting the only file of the sample index keeps
its extension counters intact. -/
theorem c10_deleted_keeps_by_extension_witness :
    ∃ idx2,
      update_project_tree sampleStore "/p" "/p/a.py" "deleted" =
        ({ sampleStore with projectIndexDoc := some idx2 }, none) ∧
      idx2.by_extension = sampleIndex.by_extension ∧
      idx2.total_files = sampleIndex.total_files - 1 :=
  (c10_deleted_keeps_by_extension sampleStore "/p" "/p/a.py" "a.py" sampleIndex
    rfl rfl (by decide)).1

/-- Claim C4 counterexample: after a successful first-time initialization
and a subsequent successful forced full re-index against a tree that
gained a file, the structural index lists both files while the quick
lookup list still holds the old one — full indexing never rewrites
`files.json`. -/
theorem c4_index_project_desync_counterexample :
    c4run1.isSome = true ∧
    c4st2.projectIndexDoc.map ProjectIndex.files = some ["a.py", "b.py"] ∧
    c4st2.filesJsonDoc.map FilesJson.files = some ["a.py"] ∧
    docsAgree c4st2 = false := by
  decide

/-- Claim C4 as amended: the persisted index and the quick-lookup list
agree on `files` and `directories` after every successful
`initialize_project_memory` and after every successful
`update_on_file_change` on a project with a persisted index; a bare full
indexing is excluded because it does not rewrite `files.json`. -/
theorem c4_docs_agree_after_init_and_update :
    (∀ (fs : FSEntries) (now : Nat) (st : Store) (r : InitResult) (st2 : Store),
        initialize_project_memory fs now st = some (r, st2) →
        docsAgree st2 = true) ∧
    (∀ (st : Store) (pp fp a : String) (st2 : Store),
        st.projectIndexDoc.isSome = true →
        update_on_file_change st pp fp a = (st2, none) →
        docsAgree st2 = true) := by
  constructor
  · intro fs now st r st2 h
    simp only [initialize_project_memory] at h
    cases hip : (index_project fs now st.indexedAt.isNone st).1 with
    | none => rw [hip] at h; simp at h
    | some idx =>
      rw [hip] at h
      simp only [Option.some.injEq, Prod.mk.injEq] at h
      obtain ⟨-, h2⟩ := h
      have hdoc : (index_project fs now st.indexedAt.isNone st).2.projectIndexDoc =
          some idx := by
        rw [index_project_doc_eq, hip]
      rw [← h2]
      simp [docsAgree, hdoc]
  · intro st pp fp a st2 hsome h
    simp only [update_on_file_change] at h
    cases herr : (update_project_tree st pp fp a).2 with
    | some e => rw [herr] at h; simp at h
    | none =>
      rw [herr] at h
      cases hdoc2 : (update_project_tree st pp fp a).1.projectIndexDoc with
      | none =>
        have hk := update_project_tree_keeps_doc st pp fp a hsome
        rw [hdoc2] at hk
        simp at hk
      | some idx2 =>
        rw [hdoc2] at h
        simp only [Prod.mk.injEq] at h
        obtain ⟨h1, -⟩ := h
        rw [← h1]
        simp [docsAgree, hdoc2]

/-- Claim C4 witness: first-time initialization of the one-file project
leaves the two documents in agreement. -/
theorem c4_docs_agree_witness :
    docsAgree ⟨some (scan_project c4fs1),
      some ⟨(scan_project c4fs1).files, (scan_project c4fs1).directories,
        (scan_project c4fs1).key_files⟩, some 0⟩ = true :=
  c4_docs_agree_after_init_and_update.1 c4fs1 0 emptyStore
    ⟨true, (scan_project c4fs1).total_files⟩ _ rfl

/-- Claim C6 counterexample: with a hand-stored adjusted weight of `-1`
for `dpt-dev` in the history, the prompt `code` scores `-0.115`, outside
`[0, 1]` — the cap is only an upper clamp. -/
theorem c6_negative_weight_counterexample :
    ¬ (0 ≤ calculate_confidence negWeightHistory "code" "dpt-dev" ∧
       calculate_confidence negWeightHistory "code" "dpt-dev" ≤ 1) := by
  with_unfolding_all decide

/-- Claim C6 as amended: for every recognition-history state whose stored
adjusted weights are all nonnegative (in particular every state the
feedback API itself can produce), the confidence score lies in
`[0, 1]`. -/
theorem c6_confidence_bounds (hist : RecHistory) (prompt agent : String)
    (hw : ∀ p ∈ hist.adjusted_weights, 0 ≤ p.2) :
    0 ≤ calculate_confidence hist prompt agent ∧
      calculate_confidence hist prompt agent ≤ 1 := by
  unfold calculate_confidence
  cases h : lookupAgent agent with
  | none => norm_num
  | some pat =>
    apply scoreKeywords_bounds
    cases hl : lookupW hist.adjusted_weights agent with
    | none =>
      simp only [Option.getD_none]
      have hb := lookupAgent_weight_bounds agent pat h
      linarith [hb.1]
    | some w0 =>
      simp only [Option.getD_some]
      unfold lookupW at hl
      cases hf : hist.adjusted_weights.find? (fun p => p.1 = agent) with
      | none => rw [hf] at hl; simp at hl
      | some q =>
        rw [hf] at hl
        simp only [Option.map_some'] at hl
        have hm : q ∈ hist.adjusted_weights := List.mem_of_find?_eq_some hf
        have hq := hw q hm
        exact (Option.some.inj hl) ▸ hq

/-- Claim C6 witness: with the empty history the score of `code` for
`dpt-dev` lies in `[0, 1]`. -/
theorem c6_confidence_bounds_witness :
    0 ≤ calculate_confidence emptyHistory "code" "dpt-dev" ∧
      calculate_confidence emptyHistory "code" "dpt-dev" ≤ 1 :=
  c6_confidence_bounds emptyHistory "code" "dpt-dev" (by simp [emptyHistory])

/-- Claim C7: starting from an empty history, every adjusted weight any
sequence of feedback calls stores lies in `[0.1, 1.0]`; and each call
moves the weight of the given agent by exactly the learning rate `0.05` —
up when helpful, down otherwise — clamped to `[0.1, 1.0]` and seeded from
the static base weight when no adjusted weight is stored yet. -/
theorem c7_adjusted_weight_invariant :
    (∀ (calls : List (String × Bool)) (agent : String) (w : ℚ),
        lookupW (applyFeedbacks calls emptyHistory).adjusted_weights agent = some w →
        1/10 ≤ w ∧ w ≤ 1) ∧
    (∀ (hist : RecHistory) (agent : String) (b : Bool),
        lookupW (provide_feedback hist agent b).adjusted_weights agent =
          some (if b then
              min 1 (((lookupW hist.adjusted_weights agent).getD (baseWeightOf agent)) + 1/20)
            else
              max (1/10) (((lookupW hist.adjusted_weights agent).getD (baseWeightOf agent)) - 1/20))) := by
  constructor
  · intro calls agent w hw
    have hempty : weightsInv emptyHistory := by
      intro a w0 h0
      simp [emptyHistory, lookupW, List.find?] at h0
    exact applyFeedbacks_inv calls emptyHistory hempty agent w hw
  · exact provide_feedback_lookup

/-- Claim C7 witness: one unhelpful feedback for `dpt-dev` stores the
weight `0.85`, inside `[0.1, 1.0]`. -/
theorem c7_adjusted_weight_witness :
    (1 : ℚ)/10 ≤ 17/20 ∧ (17 : ℚ)/20 ≤ 1 :=
  c7_adjusted_weight_invariant.1 [("dpt-dev", false)] "dpt-dev" (17/20)
    (by with_unfolding_all decide)

/-- Claim C8: for the three-keyword profile of the spec and any effective
weight in `[0.1, 1.0]`, a text containing all three keywords as whole
whitespace tokens scores strictly higher than a text containing exactly
one of them as a whole token and neither other keyword as a substring;
the strict inequality survives the clamp at `1.0` and the rounding to 3
decimals. -/
theorem c8_recognition_monotonicity (w : ℚ) (t1 t2 : String)
    (hw1 : 1/10 ≤ w) (hw2 : w ≤ 1)
    (h1a : hasSubstr (strLower t1) "database" = true)
    (h1b : "database" ∈ pySplit (strLower t1))
    (h1c : hasSubstr (strLower t1) "sql" = true)
    (h1d : "sql" ∈ pySplit (strLower t1))
    (h1e : hasSubstr (strLower t1) "schema" = true)
    (h1f : "schema" ∈ pySplit (strLower t1))
    (h2 : (hasSubstr (strLower t2) "database" = true ∧
            "database" ∈ pySplit (strLower t2) ∧
            hasSubstr (strLower t2) "sql" = false ∧
            hasSubstr (strLower t2) "schema" = false) ∨
          (hasSubstr (strLower t2) "sql" = true ∧
            "sql" ∈ pySplit (strLower t2) ∧
            hasSubstr (strLower t2) "database" = false ∧
            hasSubstr (strLower t2) "schema" = false) ∨
          (hasSubstr (strLower t2) "schema" = true ∧
            "schema" ∈ pySplit (strLower t2) ∧
            hasSubstr (strLower t2) "database" = false ∧
            hasSubstr (strLower t2) "sql" = false)) :
    scoreKeywords ["database", "sql", "schema"] w t2 <
      scoreKeywords ["database", "sql", "schema"] w t1 := by
  have hm1 : countMatches (strLower t1) (pySplit (strLower t1))
      ["database", "sql", "schema"] = 9/2 := by
    simp [countMatches, h1a, h1b, h1c, h1d, h1e, h1f]
    norm_num
  have hm2 : countMatches (strLower t2) (pySplit (strLower t2))
      ["database", "sql", "schema"] = 3/2 := by
    rcases h2 with ⟨ha, hb, hc, hd⟩ | ⟨ha, hb, hc, hd⟩ | ⟨ha, hb, hc, hd⟩ <;>
      simp [countMatches, ha, hb, hc, hd]
  have hs1 : scoreKeywords ["database", "sql", "schema"] w t1 =
      pyRound3 (min 1 (3/2 * w)) := by
    simp only [scoreKeywords, hm1, List.length_cons, List.length_nil]
    norm_num
  have hs2 : scoreKeywords ["database", "sql", "schema"] w t2 =
      pyRound3 (min 1 (1/2 * w)) := by
    simp only [scoreKeywords, hm2, List.length_cons, List.length_nil]
    norm_num
  rw [hs1, hs2]
  have hminb : min 1 ((1 : ℚ)/2 * w) = 1/2 * w := min_eq_right (by linarith)
  by_cases hc : w < 2/3
  · have hmina : min 1 ((3 : ℚ)/2 * w) = 3/2 * w := min_eq_right (by linarith)
    rw [hmina, hminb]
    have hu := pyRound3_le (1/2 * w)
    have hl := le_pyRound3 (3/2 * w)
    linarith
  · push_neg at hc
    have hmina : min 1 ((3 : ℚ)/2 * w) = 1 := min_eq_left (by linarith)
    rw [hmina, hminb]
    have hone : pyRound3 1 = 1 := by with_unfolding_all decide
    rw [hone]
    have hu := pyRound3_le (1/2 * w)
    linarith

/-- Claim C8 witness: with weight one half, `database sql schema` scores
strictly above `database stuff`. -/
theorem c8_recognition_monotonicity_witness :
    scoreKeywords ["database", "sql", "schema"] (1/2) "database stuff" <
      scoreKeywords ["database", "sql", "schema"] (1/2) "database sql schema" :=
  c8_recognition_monotonicity (1/2) "database sql schema" "database stuff"
    (by norm_num) (by norm_num)
    (by decide) (by decide) (by decide) (by decide) (by decide) (by decide)
    (Or.inl ⟨by decide, by decide, by decide, by decide⟩)

end Droidpartment
